import Mathlib

/-!
Verification of the marbles chaincode (src/chaincode/marbles.go).

The ledger is modelled as an association list from string keys to stored
documents.  The source file contains the data-model structs, `Init`,
`Invoke`, `read` and `write`; the handler bodies (`init_marble`,
`delete_marble`, `set_owner`, `init_owner`, `open_trade`, `perform_trade`,
`remove_trade`, `cleanTrades`) are dispatched from `Invoke` but their code is
not in the repository snapshot, so they are modelled from the specification
(each such definition is marked `Modelled from the spec:`).  Persistence
encoding (JSON) is outside the core contract, so stored documents are a sum
type of the structured records plus raw byte strings; a value of the wrong
constructor corresponds to bytes that fail to decode.
-/

namespace Marbles

/-- Marble record, from the Go struct `Marble` (Go `int` as unbounded `Int`;
overflow plays no role in any claim). -/
structure Marble where
  objectType : String
  name : String
  color : String
  size : Int
  owner : String
deriving DecidableEq, Repr

/-- Marble index document, from the Go struct `MarblesIndex`. -/
structure MarblesIndex where
  objectType : String
  marbles : List String
deriving DecidableEq, Repr

/-- Descriptor of a marble by attributes, from the Go struct `Description`. -/
structure Description where
  objectType : String
  color : String
  size : Int
deriving DecidableEq, Repr

/-- One open trade offer, from the Go struct `AnOpenTrade`. -/
structure AnOpenTrade where
  user : String
  timestamp : Int
  want : Description
  willing : List Description
deriving DecidableEq, Repr

/-- The aggregate open-trades document, from the Go struct `AllTrades`. -/
structure AllTrades where
  objectType : String
  openTrades : List AnOpenTrade
deriving DecidableEq, Repr

/-- Owner record, from the Go struct `Owner`. -/
structure Owner where
  objectType : String
  username : String
  company : String
  timestamp : Int
deriving DecidableEq, Repr

/-- Owner index document, from the Go struct `OwnersIndex`. -/
structure OwnersIndex where
  objectType : String
  owners : List String
deriving DecidableEq, Repr

/-- A value stored under one ledger key: either raw bytes (as written by
`write` or `Init`'s test variable) or one of the structured documents.
A lookup expecting one document kind fails to decode any other constructor. -/
inductive Val where
  | raw (s : String)
  | marbleV (m : Marble)
  | marbleIndexV (i : MarblesIndex)
  | tradesV (t : AllTrades)
  | ownerV (o : Owner)
  | ownersIndexV (i : OwnersIndex)
deriving DecidableEq, Repr

/-- Ledger state: association list from keys to stored values
(the KV ledger adapter's get/put interface). -/
def St : Type := List (String × Val)

instance : DecidableEq St := inferInstanceAs (DecidableEq (List (String × Val)))

/-- `GetState`: first binding of the key, if any. -/
def getState : St → String → Option Val
  | [], _ => none
  | (k, v) :: rest, key => if key = k then some v else getState rest key

/-- Remove every binding of a key (`DelState`). -/
def delState : St → String → St
  | [], _ => []
  | (k, v) :: rest, key =>
      if k = key then delState rest key else (k, v) :: delState rest key

/-- `PutState`: bind the key to the value, dropping older bindings. -/
def putState (s : St) (k : String) (v : Val) : St :=
  (k, v) :: delState s k

/-- Error kinds, following §7 of the spec. -/
inductive Err where
  | argCount
  | argType
  | notFound
  | alreadyExists
  | noMatch
  | decodeFail
  | unknownFunction (f : String)
deriving DecidableEq, Repr

/-- What a handler returns: an error, or optional response bytes
(Go's `([]byte, error)` with the convention that res is nil on error). -/
abbrev Ret := Except Err (Option Val)

/-- Key of the marble index singleton (`marbleIndexStr` in the source). -/
def marbleIndexStr : String := "_marbleindex"

/-- Key of the open-trades singleton (`openTradesStr` in the source). -/
def openTradesStr : String := "_opentrades"

/-- Key of the owner index singleton (`ownerIndexStr` in the source). -/
def ownerIndexStr : String := "_ownerindex"

/-- Decode the marble index document; absent or non-index bytes fail. -/
def getMarblesIndex (s : St) : Except Err MarblesIndex :=
  match getState s marbleIndexStr with
  | some (Val.marbleIndexV i) => .ok i
  | _ => .error .decodeFail

/-- Decode the open-trades document; absent or non-trades bytes fail. -/
def getAllTrades (s : St) : Except Err AllTrades :=
  match getState s openTradesStr with
  | some (Val.tradesV t) => .ok t
  | _ => .error .decodeFail

/-- Decode the owner index document; absent or non-index bytes fail. -/
def getOwnersIndex (s : St) : Except Err OwnersIndex :=
  match getState s ownerIndexStr with
  | some (Val.ownersIndexV i) => .ok i
  | _ => .error .decodeFail

/-- Accumulate decimal digits; fails on any non-digit character. -/
def parseDigits : List Char → Nat → Option Nat
  | [], acc => some acc
  | c :: cs, acc =>
      if c.isDigit then parseDigits cs (acc * 10 + (c.toNat - '0'.toNat))
      else none

/-- Model of Go's `strconv.Atoi`: optional sign then one or more digits
(the fixed-width range check is irrelevant to every claim). -/
def atoi (str : String) : Option Int :=
  match str.toList with
  | [] => none
  | '+' :: cs => if cs = [] then none else (parseDigits cs 0).map Int.ofNat
  | '-' :: cs => if cs = [] then none else (parseDigits cs 0).map (fun n => -(n : Int))
  | cs => (parseDigits cs 0).map Int.ofNat

/-- `read` from the source: one argument (the key); returns the stored bytes
unmodified.  The stub's behaviour on an absent key is external to src; per the
spec's ledger interface (`get(key) -> bytes|absent`) and §4.2 ("or an error if
absent"), an absent key takes the error path. -/
def read (args : List String) (s : St) : Ret × St :=
  match args with
  | [name] =>
      match getState s name with
      | some v => (.ok (some v), s)
      | none => (.error .notFound, s)
  | _ => (.error .argCount, s)

/-- `write` from the source: two arguments, stores the raw value bytes under
the key with no validation or index maintenance. -/
def write (args : List String) (s : St) : Ret × St :=
  match args with
  | [name, value] => (.ok none, putState s name (.raw value))
  | _ => (.error .argCount, s)

/-- `Init` from the source: one integer argument; writes it (decimal-encoded)
under "abc", then resets the marble index, open trades and owner index to
empty documents with their docTypes. -/
def Init (args : List String) (s : St) : Ret × St :=
  match args with
  | [a] =>
      match atoi a with
      | none => (.error .argType, s)
      | some aval =>
          let s1 := putState s "abc" (.raw (toString aval))
          let s2 := putState s1 marbleIndexStr (.marbleIndexV ⟨"MarbleIndex", []⟩)
          let s3 := putState s2 openTradesStr (.tradesV ⟨"Trades", []⟩)
          (.ok none, putState s3 ownerIndexStr (.ownersIndexV ⟨"OwnerIndex", []⟩))
  | _ => (.error .argCount, s)

/-- Modelled from the spec: `createMarble(name, color, size, owner)` (§4.2),
the body of `init_marble`, absent from src.  Fails if the name already exists
(read-before-write check); otherwise writes the Marble record, then appends
the name to the marble index if absent (§4.1 addToIndex). -/
def createMarble (name color : String) (size : Int) (owner : String) (s : St) :
    Ret × St :=
  match getState s name with
  | some _ => (.error .alreadyExists, s)
  | none =>
      let m : Marble :=
        { objectType := "marble", name := name, color := color
          size := size, owner := owner }
      let s1 := putState s name (.marbleV m)
      match getMarblesIndex s1 with
      | .error e => (.error e, s1)
      | .ok idx =>
          let idx2 :=
            if name ∈ idx.marbles then idx
            else { idx with marbles := idx.marbles ++ [name] }
          (.ok none, putState s1 marbleIndexStr (.marbleIndexV idx2))

/-- Modelled from the spec: `deleteMarble(name)` (§4.2), the body of
`delete_marble`, absent from src.  Fails if no such Marble exists; otherwise
removes the record, then removes the name from the marble index
(§4.1 removeFromIndex: first occurrence, no-op if absent). -/
def deleteMarble (name : String) (s : St) : Ret × St :=
  match getState s name with
  | some (Val.marbleV _) =>
      let s1 := delState s name
      match getMarblesIndex s1 with
      | .error e => (.error e, s1)
      | .ok idx =>
          (.ok none,
            putState s1 marbleIndexStr
              (.marbleIndexV { idx with marbles := idx.marbles.erase name }))
  | some _ => (.error .decodeFail, s)
  | none => (.error .notFound, s)

/-- Modelled from the spec: `setOwner(name, newOwner)` (§4.2), the body of
`set_owner`, absent from src.  Fails if the Marble does not exist; does not
validate the new owner; mutates the owner field in place, index untouched. -/
def setOwner (name newOwner : String) (s : St) : Ret × St :=
  match getState s name with
  | some (Val.marbleV m) =>
      (.ok none, putState s name (.marbleV { m with owner := newOwner }))
  | some _ => (.error .decodeFail, s)
  | none => (.error .notFound, s)

/-- Modelled from the spec: `createOwner(username, company)` (§4.3), the body
of `init_owner`, absent from src.  Fails if the username exists; writes the
record and appends to the owner index. -/
def createOwner (now : Int) (username company : String) (s : St) : Ret × St :=
  match getState s username with
  | some _ => (.error .alreadyExists, s)
  | none =>
      let o : Owner :=
        { objectType := "owner", username := username
          company := company, timestamp := now }
      let s1 := putState s username (.ownerV o)
      match getOwnersIndex s1 with
      | .error e => (.error e, s1)
      | .ok idx =>
          let idx2 :=
            if username ∈ idx.owners then idx
            else { idx with owners := idx.owners ++ [username] }
          (.ok none, putState s1 ownerIndexStr (.ownersIndexV idx2))

/-- Modelled from the spec: `openTrade(user, want, willing)` (§4.4), the body
of `open_trade`, absent from src.  Fails if `willing` is empty (validated at
creation); otherwise appends a new trade with the current timestamp. -/
def openTrade (now : Int) (user : String) (want : Description)
    (willing : List Description) (s : St) : Ret × St :=
  if willing.isEmpty then (.error .argCount, s)
  else
    match getAllTrades s with
    | .error e => (.error e, s)
    | .ok ts =>
        let tr : AnOpenTrade :=
          { user := user, timestamp := now, want := want, willing := willing }
        (.ok none,
          putState s openTradesStr
            (.tradesV { ts with openTrades := ts.openTrades ++ [tr] }))

/-- Walk the marble index in order and return the first marble owned by
`user` whose descriptor matches some entry of `willing` (§4.4 matching, §9
"first match in index order"); names that do not decode as marbles are
skipped. -/
def ownsMatching (s : St) (user : String) (willing : List Description) :
    List String → Option Marble
  | [] => none
  | n :: rest =>
      match getState s n with
      | some (Val.marbleV m) =>
          if m.owner = user &&
              willing.any (fun d => d.color = m.color && d.size = m.size)
          then some m
          else ownsMatching s user willing rest
      | _ => ownsMatching s user willing rest

/-- Modelled from the spec: `performTrade(tradeIndex, counterpartyOwner,
marbleName)` (§4.4), the body of `perform_trade`, absent from src.  Out of
range fails; the named marble must match `want` by exact (color, size)
equality and the trade's user must own a marble matching some `willing`
entry; on success both ownerships swap and the trade is removed; on no match
nothing changes. -/
def performTrade (tradeIndex : Int) (counterOwner marbleName : String)
    (s : St) : Ret × St :=
  match getAllTrades s with
  | .error e => (.error e, s)
  | .ok ts =>
      if h : 0 ≤ tradeIndex ∧ tradeIndex.toNat < ts.openTrades.length then
        let tr := ts.openTrades.get ⟨tradeIndex.toNat, h.2⟩
        match getState s marbleName with
        | some (Val.marbleV m) =>
            if m.color = tr.want.color && m.size = tr.want.size then
              match getMarblesIndex s with
              | .error e => (.error e, s)
              | .ok idx =>
                  match ownsMatching s tr.user tr.willing idx.marbles with
                  | none => (.error .noMatch, s)
                  | some m2 =>
                      let s1 :=
                        putState s marbleName (.marbleV { m with owner := tr.user })
                      let s2 :=
                        putState s1 m2.name (.marbleV { m2 with owner := counterOwner })
                      (.ok none,
                        putState s2 openTradesStr
                          (.tradesV { ts with
                            openTrades := ts.openTrades.eraseIdx tradeIndex.toNat }))
            else (.error .noMatch, s)
        | some _ => (.error .decodeFail, s)
        | none => (.error .notFound, s)
      else (.error .notFound, s)

/-- Modelled from the spec: `removeTrade(tradeIndex)` (§4.4), the body of
`remove_trade`, absent from src.  Unconditionally removes the entry at that
position if in range; fails if out of range (negative likewise, §8). -/
def removeTrade (tradeIndex : Int) (s : St) : Ret × St :=
  match getAllTrades s with
  | .error e => (.error e, s)
  | .ok ts =>
      if 0 ≤ tradeIndex ∧ tradeIndex.toNat < ts.openTrades.length then
        (.ok none,
          putState s openTradesStr
            (.tradesV { ts with
              openTrades := ts.openTrades.eraseIdx tradeIndex.toNat }))
      else (.error .notFound, s)

/-- Modelled from the spec: `cleanTrades()` (§4.4), absent from src.  Prunes
every open trade whose user no longer owns a live marble matching some
`willing` entry; validity is re-derived from current ownership. -/
def cleanTrades (s : St) : Except Err Unit × St :=
  match getAllTrades s with
  | .error e => (.error e, s)
  | .ok ts =>
      match getMarblesIndex s with
      | .error e => (.error e, s)
      | .ok idx =>
          let keep := ts.openTrades.filter
            (fun tr => (ownsMatching s tr.user tr.willing idx.marbles).isSome)
          (.ok (),
            putState s openTradesStr (.tradesV { ts with openTrades := keep }))

/-- Positional-string decoding of `init_marble` arguments:
name, color, size (integer), owner. -/
def init_marble (args : List String) (s : St) : Ret × St :=
  match args with
  | [name, color, sizeStr, owner] =>
      match atoi sizeStr with
      | some size => createMarble name color size owner s
      | none => (.error .argType, s)
  | _ => (.error .argCount, s)

/-- Positional-string decoding of `delete_marble` arguments: name. -/
def delete_marble (args : List String) (s : St) : Ret × St :=
  match args with
  | [name] => deleteMarble name s
  | _ => (.error .argCount, s)

/-- Positional-string decoding of `set_owner` arguments: name, new owner. -/
def set_owner (args : List String) (s : St) : Ret × St :=
  match args with
  | [name, newOwner] => setOwner name newOwner s
  | _ => (.error .argCount, s)

/-- Positional-string decoding of `init_owner` arguments: username, company. -/
def init_owner (now : Int) (args : List String) (s : St) : Ret × St :=
  match args with
  | [username, company] => createOwner now username company s
  | _ => (.error .argCount, s)

/-- Decode a flattened sequence of (color, size) pairs into descriptors. -/
def parseDescList : List String → Option (List Description)
  | [] => some []
  | c :: zs :: rest =>
      match atoi zs, parseDescList rest with
      | some z, some ds => some (⟨"description", c, z⟩ :: ds)
      | _, _ => none
  | _ => none

/-- Positional-string decoding of `open_trade` arguments: user, want color,
want size, then flattened willing (color, size) pairs. -/
def open_trade (now : Int) (args : List String) (s : St) : Ret × St :=
  match args with
  | user :: wantColor :: wantSize :: rest =>
      match atoi wantSize, parseDescList rest with
      | some wz, some willing =>
          openTrade now user ⟨"description", wantColor, wz⟩ willing s
      | _, _ => (.error .argType, s)
  | _ => (.error .argCount, s)

/-- Positional-string decoding of `perform_trade` arguments: trade index
(integer), counterparty owner, marble name. -/
def perform_trade (args : List String) (s : St) : Ret × St :=
  match args with
  | [idxStr, counterOwner, marbleName] =>
      match atoi idxStr with
      | some i => performTrade i counterOwner marbleName s
      | none => (.error .argType, s)
  | _ => (.error .argCount, s)

/-- Positional-string decoding of `remove_trade` arguments: trade index. -/
def remove_trade (args : List String) (s : St) : Ret × St :=
  match args with
  | [idxStr] =>
      match atoi idxStr with
      | some i => removeTrade i s
      | none => (.error .argType, s)
  | _ => (.error .argCount, s)

/-- `Invoke` from the source: name-to-handler dispatch.  After
`delete_marble`, `set_owner` and `perform_trade` it additionally runs
`cleanTrades` and discards its error, returning the handler's own result. -/
def Invoke (now : Int) (function : String) (args : List String) (s : St) :
    Ret × St :=
  if function = "init" then Init args s
  else if function = "delete_marble" then
    let r := delete_marble args s
    (r.1, (cleanTrades r.2).2)
  else if function = "write" then write args s
  else if function = "init_marble" then init_marble args s
  else if function = "set_owner" then
    let r := set_owner args s
    (r.1, (cleanTrades r.2).2)
  else if function = "open_trade" then open_trade now args s
  else if function = "perform_trade" then
    let r := perform_trade args s
    (r.1, (cleanTrades r.2).2)
  else if function = "remove_trade" then remove_trade args s
  else if function = "read" then read args s
  else if function = "init_owner" then init_owner now args s
  else (.error (.unknownFunction function), s)

/-! ## Ledger store lemmas -/

theorem getState_delState_ne (s : St) (k k' : String) (h : k' ≠ k) :
    getState (delState s k) k' = getState s k' := by
  induction s with
  | nil => rfl
  | cons p rest ih =>
      obtain ⟨a, v⟩ := p
      by_cases hak : a = k
      · subst hak
        simp [delState, getState, h, ih]
      · by_cases hk'a : k' = a
        · subst hk'a
          simp [delState, getState, hak]
        · simp [delState, getState, hak, hk'a, ih]

theorem getState_delState_self (s : St) (k : String) :
    getState (delState s k) k = none := by
  induction s with
  | nil => rfl
  | cons p rest ih =>
      obtain ⟨a, v⟩ := p
      by_cases hak : a = k
      · simp [delState, hak, ih]
      · have hka : k ≠ a := fun hh => hak hh.symm
        simp [delState, getState, hak, hka, ih]

theorem getState_putState_self (s : St) (k : String) (v : Val) :
    getState (putState s k v) k = some v := by
  simp [putState, getState]

theorem getState_putState_ne (s : St) (k : String) (v : Val) (k' : String)
    (h : k' ≠ k) : getState (putState s k v) k' = getState s k' := by
  simp [putState, getState, h, getState_delState_ne s k k' h]

/-! ## Claims about read, write, dispatch, Init, openTrade -/

/-- C5: `read(key)` with exactly one argument returns the stored bytes for
that key unmodified, whatever document kind they hold, and returns an error
(leaving state unchanged) when nothing is stored under the key. -/
theorem read_is_raw_passthrough (k : String) (s : St) :
    (∀ v, getState s k = some v → read [k] s = (.ok (some v), s)) ∧
    (getState s k = none → read [k] s = (.error .notFound, s)) := by
  constructor
  · intro v hv
    simp only [read, hv]
  · intro hv
    simp only [read, hv]

theorem read_is_raw_passthrough_witness :
    read ["k"] [("k", Val.raw "hello")] =
      (.ok (some (.raw "hello")), [("k", Val.raw "hello")]) ∧
    read ["z"] [("k", Val.raw "hello")] =
      (.error .notFound, [("k", Val.raw "hello")]) :=
  ⟨(read_is_raw_passthrough "k" [("k", Val.raw "hello")]).1 (Val.raw "hello")
      (by decide),
    (read_is_raw_passthrough "z" [("k", Val.raw "hello")]).2 (by decide)⟩

/-- C8: `write(key, value)` succeeds, stores exactly the given value bytes
under the given key, and changes no other key — in particular it performs no
index or registry maintenance. -/
theorem write_stores_value_and_frames (k v : String) (s : St) :
    (write [k, v] s).1 = .ok none ∧
    getState (write [k, v] s).2 k = some (.raw v) ∧
    (∀ k', k' ≠ k → getState (write [k, v] s).2 k' = getState s k') := by
  refine ⟨rfl, ?_, ?_⟩
  · simp only [write, getState_putState_self]
  · intro k' h
    simp only [write, getState_putState_ne _ _ _ _ h]

theorem write_stores_value_and_frames_witness :
    (write ["a", "1"] [("b", Val.raw "2")]).1 = .ok none ∧
    getState (write ["a", "1"] [("b", Val.raw "2")]).2 "a" =
      some (.raw "1") ∧
    getState (write ["a", "1"] [("b", Val.raw "2")]).2 "b" =
      getState [("b", Val.raw "2")] "b" :=
  ⟨(write_stores_value_and_frames "a" "1" [("b", Val.raw "2")]).1,
    (write_stores_value_and_frames "a" "1" [("b", Val.raw "2")]).2.1,
    (write_stores_value_and_frames "a" "1" [("b", Val.raw "2")]).2.2 "b"
      (by decide)⟩

/-- C2: `Invoke` runs `cleanTrades` as a post-step exactly after
`delete_marble`, `set_owner` and `perform_trade`; the other handlers
(`init_marble`, `open_trade`, `remove_trade`, `init_owner`, `read`, `write`)
are dispatched with no post-step. -/
theorem invoke_cleanTrades_post_step (now : Int) (args : List String)
    (s : St) :
    Invoke now "delete_marble" args s =
      ((delete_marble args s).1, (cleanTrades (delete_marble args s).2).2) ∧
    Invoke now "set_owner" args s =
      ((set_owner args s).1, (cleanTrades (set_owner args s).2).2) ∧
    Invoke now "perform_trade" args s =
      ((perform_trade args s).1, (cleanTrades (perform_trade args s).2).2) ∧
    Invoke now "init_marble" args s = init_marble args s ∧
    Invoke now "open_trade" args s = open_trade now args s ∧
    Invoke now "remove_trade" args s = remove_trade args s ∧
    Invoke now "init_owner" args s = init_owner now args s ∧
    Invoke now "read" args s = read args s ∧
    Invoke now "write" args s = write args s :=
  ⟨rfl, rfl, rfl, rfl, rfl, rfl, rfl, rfl, rfl⟩

/-- C10: for the three cleanTrades-triggering functions, the post-step runs
even when the handler returned an error, and `Invoke` returns the handler's
own result unchanged, ignoring any error from `cleanTrades` itself. -/
theorem invoke_post_step_on_error (now : Int) (args : List String) (s : St)
    (e : Err) :
    ((delete_marble args s).1 = .error e →
      Invoke now "delete_marble" args s =
        (.error e, (cleanTrades (delete_marble args s).2).2)) ∧
    ((set_owner args s).1 = .error e →
      Invoke now "set_owner" args s =
        (.error e, (cleanTrades (set_owner args s).2).2)) ∧
    ((perform_trade args s).1 = .error e →
      Invoke now "perform_trade" args s =
        (.error e, (cleanTrades (perform_trade args s).2).2)) ∧
    ((cleanTrades (delete_marble args s).2).1 = .error e →
      (Invoke now "delete_marble" args s).1 = (delete_marble args s).1) ∧
    ((cleanTrades (set_owner args s).2).1 = .error e →
      (Invoke now "set_owner" args s).1 = (set_owner args s).1) ∧
    ((cleanTrades (perform_trade args s).2).1 = .error e →
      (Invoke now "perform_trade" args s).1 = (perform_trade args s).1) := by
  refine ⟨fun h => ?_, fun h => ?_, fun h => ?_, fun _ => rfl, fun _ => rfl,
    fun _ => rfl⟩
  · show ((delete_marble args s).1, _) = _
    rw [h]
  · show ((set_owner args s).1, _) = _
    rw [h]
  · show ((perform_trade args s).1, _) = _
    rw [h]

theorem invoke_post_step_on_error_witness :
    Invoke 0 "delete_marble" ["x"] [] =
      (.error .notFound, (cleanTrades (delete_marble ["x"] []).2).2) ∧
    (Invoke 0 "delete_marble" ["x"] []).1 = (delete_marble ["x"] []).1 ∧
    (cleanTrades (delete_marble ["x"] []).2).1 = .error .decodeFail :=
  ⟨(invoke_post_step_on_error 0 ["x"] [] Err.notFound).1 rfl,
    (invoke_post_step_on_error 0 ["x"] [] Err.decodeFail).2.2.2.1 rfl,
    rfl⟩

/-- C6: `openTrade` fails when the `willing` sequence is empty, for every
user and want, checked at creation time: the state is returned unchanged, so
no trade entry is appended. -/
theorem openTrade_rejects_empty_willing (now : Int) (user : String)
    (want : Description) (willing : List Description) (s : St)
    (h : willing = []) :
    openTrade now user want willing s = (.error .argCount, s) := by
  subst h
  rfl

theorem openTrade_rejects_empty_willing_witness :
    openTrade 0 "alice" ⟨"description", "red", 5⟩ [] [] =
      (.error .argCount, []) :=
  openTrade_rejects_empty_willing 0 "alice" ⟨"description", "red", 5⟩ [] []
    rfl

/-- C9: invoking "init" dispatches to `Init`; with one integer-valued string
argument it succeeds, writes the integer (re-encoded in decimal) under "abc"
and resets the marble index, open-trades and owner index documents to empty;
with a wrong argument count or a non-integer argument it fails and writes
nothing. -/
theorem init_resets_state (args : List String) (s : St) :
    (∀ now, Invoke now "init" args s = Init args s) ∧
    (args.length ≠ 1 → Init args s = (.error .argCount, s)) ∧
    (∀ a, args = [a] → atoi a = none → Init args s = (.error .argType, s)) ∧
    (∀ a v, args = [a] → atoi a = some v →
      (Init args s).1 = .ok none ∧
      getState (Init args s).2 "abc" = some (.raw (toString v)) ∧
      getState (Init args s).2 marbleIndexStr =
        some (.marbleIndexV ⟨"MarbleIndex", []⟩) ∧
      getState (Init args s).2 openTradesStr =
        some (.tradesV ⟨"Trades", []⟩) ∧
      getState (Init args s).2 ownerIndexStr =
        some (.ownersIndexV ⟨"OwnerIndex", []⟩)) := by
  refine ⟨fun now => rfl, ?_, ?_, ?_⟩
  · intro h
    match args with
    | [] => rfl
    | [a] => exact absurd rfl h
    | a :: b :: rest => rfl
  · intro a ha hatoi
    subst ha
    simp only [Init, hatoi]
  · intro a v ha hatoi
    subst ha
    have hI : Init [a] s =
        (.ok none,
          putState
            (putState
              (putState (putState s "abc" (.raw (toString v)))
                marbleIndexStr (.marbleIndexV ⟨"MarbleIndex", []⟩))
              openTradesStr (.tradesV ⟨"Trades", []⟩))
            ownerIndexStr (.ownersIndexV ⟨"OwnerIndex", []⟩)) := by
      simp only [Init, hatoi]
    rw [hI]
    refine ⟨rfl, ?_, ?_, ?_, ?_⟩
    · rw [getState_putState_ne _ _ _ _ (by decide),
        getState_putState_ne _ _ _ _ (by decide),
        getState_putState_ne _ _ _ _ (by decide),
        getState_putState_self]
    · rw [getState_putState_ne _ _ _ _ (by decide),
        getState_putState_ne _ _ _ _ (by decide),
        getState_putState_self]
    · rw [getState_putState_ne _ _ _ _ (by decide),
        getState_putState_self]
    · rw [getState_putState_self]

theorem init_resets_state_witness :
    Invoke 0 "init" ["7"] [("x", Val.raw "old")] =
      Init ["7"] [("x", Val.raw "old")] ∧
    (Init ["7"] [("x", Val.raw "old")]).1 = .ok none ∧
    getState (Init ["7"] [("x", Val.raw "old")]).2 "abc" =
      some (.raw "7") ∧
    getState (Init ["7"] [("x", Val.raw "old")]).2 marbleIndexStr =
      some (.marbleIndexV ⟨"MarbleIndex", []⟩) ∧
    Init ["a", "b"] [] = (.error .argCount, []) ∧
    Init ["xyz"] [] = (.error .argType, []) := by
  have h := init_resets_state ["7"] [("x", Val.raw "old")]
  have h4 := h.2.2.2 "7" 7 rfl (by decide)
  exact ⟨h.1 0, h4.1, h4.2.1, h4.2.2.1,
    (init_resets_state ["a", "b"] []).2.1 (by decide),
    (init_resets_state ["xyz"] []).2.2.1 "xyz" rfl (by decide)⟩

/-! ## Decoder inversion and cleanTrades characterization -/

theorem getAllTrades_ok_iff (s : St) (ts : AllTrades) :
    getAllTrades s = .ok ts ↔
      getState s openTradesStr = some (.tradesV ts) := by
  unfold getAllTrades
  cases h : getState s openTradesStr with
  | none => simp
  | some v => cases v <;> simp

theorem getMarblesIndex_ok_iff (s : St) (idx : MarblesIndex) :
    getMarblesIndex s = .ok idx ↔
      getState s marbleIndexStr = some (.marbleIndexV idx) := by
  unfold getMarblesIndex
  cases h : getState s marbleIndexStr with
  | none => simp
  | some v => cases v <;> simp

theorem cleanTrades_error_trades (s : St) (e : Err)
    (h : getAllTrades s = .error e) : cleanTrades s = (.error e, s) := by
  simp only [cleanTrades, h]

theorem cleanTrades_error_index (s : St) (ts : AllTrades) (e : Err)
    (h : getAllTrades s = .ok ts) (h2 : getMarblesIndex s = .error e) :
    cleanTrades s = (.error e, s) := by
  simp only [cleanTrades, h, h2]

theorem cleanTrades_ok (s : St) (ts : AllTrades) (idx : MarblesIndex)
    (h : getAllTrades s = .ok ts) (h2 : getMarblesIndex s = .ok idx) :
    cleanTrades s =
      (.ok (),
        putState s openTradesStr
          (.tradesV { ts with
            openTrades := ts.openTrades.filter
              (fun tr =>
                (ownsMatching s tr.user tr.willing idx.marbles).isSome) })) := by
  simp only [cleanTrades, h, h2]

/-- Overwriting the open-trades document (which held a trades value, hence
never decodes as a marble) does not change what `ownsMatching` sees. -/
theorem ownsMatching_put_trades (s : St) (u : String) (w : List Description)
    (t0 t' : AllTrades) (h : getState s openTradesStr = some (.tradesV t0)) :
    ∀ names,
      ownsMatching (putState s openTradesStr (.tradesV t')) u w names =
        ownsMatching s u w names := by
  intro names
  induction names with
  | nil => rfl
  | cons n rest ih =>
      by_cases hn : n = openTradesStr
      · subst hn
        simp only [ownsMatching, getState_putState_self, h, ih]
      · simp only [ownsMatching, getState_putState_ne _ _ _ _ hn, ih]

/-- C4: `cleanTrades` is idempotent — after a second run in a row the
open-trades document equals what the first run left. -/
theorem cleanTrades_idempotent (s : St) :
    getState (cleanTrades (cleanTrades s).2).2 openTradesStr =
      getState (cleanTrades s).2 openTradesStr := by
  rcases hts : getAllTrades s with e | ts
  · have h1 := cleanTrades_error_trades s e hts
    simp [h1]
  · rcases hidx : getMarblesIndex s with e | idx
    · have h1 := cleanTrades_error_index s ts e hts hidx
      simp [h1]
    · have hg := (getAllTrades_ok_iff s ts).1 hts
      have hm := (getMarblesIndex_ok_iff s idx).1 hidx
      set p : AnOpenTrade → Bool :=
        fun tr => (ownsMatching s tr.user tr.willing idx.marbles).isSome with hp
      have h1 := cleanTrades_ok s ts idx hts hidx
      set s2 := putState s openTradesStr
        (.tradesV { ts with openTrades := ts.openTrades.filter p }) with hs2
      have hts2 : getAllTrades s2 =
          .ok { ts with openTrades := ts.openTrades.filter p } :=
        (getAllTrades_ok_iff _ _).2 (getState_putState_self _ _ _)
      have hmne : marbleIndexStr ≠ openTradesStr := by decide
      have hm2 : getMarblesIndex s2 = .ok idx :=
        (getMarblesIndex_ok_iff _ _).2
          (by rw [hs2, getState_putState_ne _ _ _ _ hmne]; exact hm)
      have h2 := cleanTrades_ok s2 _ idx hts2 hm2
      have hpred : (fun tr : AnOpenTrade =>
          (ownsMatching s2 tr.user tr.willing idx.marbles).isSome) = p := by
        funext tr
        rw [hs2, ownsMatching_put_trades s tr.user tr.willing ts _ hg idx.marbles]
      have hfilter : ((ts.openTrades.filter p).filter
          (fun tr =>
            (ownsMatching s2 tr.user tr.willing idx.marbles).isSome)) =
          ts.openTrades.filter p := by
        rw [hpred]
        exact List.filter_eq_self.mpr (fun a ha => List.of_mem_filter ha)
      have lhs1 : (cleanTrades s).2 = s2 := by rw [h1]
      have step2 : getState (cleanTrades s2).2 openTradesStr =
          getState s2 openTradesStr := by
        rw [h2]
        show getState (putState s2 openTradesStr _) openTradesStr = _
        rw [getState_putState_self, hs2, getState_putState_self]
        exact congrArg (fun l => some (Val.tradesV { ts with openTrades := l }))
          hfilter
      rw [lhs1, step2]

/-- C7: validation failures return an error synchronously and leave the
ledger state untouched — in particular `read` with an argument count other
than 1 and `write` with an argument count other than 2, and likewise the
arity and integer-parse checks of every other operation, including
`open_trade`'s non-numeric want size, malformed willing pairs, and the
empty-willing rejection reached when exactly the three leading arguments are
supplied. -/
theorem validation_failure_no_side_effects (now : Int) (args : List String)
    (s : St) :
    (args.length ≠ 1 → read args s = (.error .argCount, s)) ∧
    (args.length ≠ 2 → write args s = (.error .argCount, s)) ∧
    (args.length ≠ 1 → Init args s = (.error .argCount, s)) ∧
    (∀ a, args = [a] → atoi a = none → Init args s = (.error .argType, s)) ∧
    (args.length ≠ 4 → init_marble args s = (.error .argCount, s)) ∧
    (∀ n c z o, args = [n, c, z, o] → atoi z = none →
      init_marble args s = (.error .argType, s)) ∧
    (args.length ≠ 1 → delete_marble args s = (.error .argCount, s)) ∧
    (args.length ≠ 2 → set_owner args s = (.error .argCount, s)) ∧
    (args.length ≠ 2 → init_owner now args s = (.error .argCount, s)) ∧
    (args.length < 3 → open_trade now args s = (.error .argCount, s)) ∧
    (args.length ≠ 3 → perform_trade args s = (.error .argCount, s)) ∧
    (∀ a b c, args = [a, b, c] → atoi a = none →
      perform_trade args s = (.error .argType, s)) ∧
    (args.length ≠ 1 → remove_trade args s = (.error .argCount, s)) ∧
    (∀ a, args = [a] → atoi a = none →
      remove_trade args s = (.error .argType, s)) ∧
    (∀ u wc ws rest, args = u :: wc :: ws :: rest → atoi ws = none →
      open_trade now args s = (.error .argType, s)) ∧
    (∀ u wc ws rest, args = u :: wc :: ws :: rest → parseDescList rest = none →
      open_trade now args s = (.error .argType, s)) ∧
    (∀ u wc ws, args = [u, wc, ws] → ∀ wz, atoi ws = some wz →
      open_trade now args s = (.error .argCount, s)) := by
  refine ⟨?_, ?_, ?_, ?_, ?_, ?_, ?_, ?_, ?_, ?_, ?_, ?_, ?_, ?_, ?_, ?_, ?_⟩
  · match args with
    | [] => exact fun _ => rfl
    | [a] => exact fun h => absurd rfl h
    | a :: b :: t => exact fun _ => rfl
  · match args with
    | [] => exact fun _ => rfl
    | [a] => exact fun _ => rfl
    | [a, b] => exact fun h => absurd rfl h
    | a :: b :: c :: t => exact fun _ => rfl
  · match args with
    | [] => exact fun _ => rfl
    | [a] => exact fun h => absurd rfl h
    | a :: b :: t => exact fun _ => rfl
  · intro a ha hx
    subst ha
    simp only [Init, hx]
  · match args with
    | [] => exact fun _ => rfl
    | [a] => exact fun _ => rfl
    | [a, b] => exact fun _ => rfl
    | [a, b, c] => exact fun _ => rfl
    | [a, b, c, d] => exact fun h => absurd rfl h
    | a :: b :: c :: d :: e :: t => exact fun _ => rfl
  · intro n c z o ha hx
    subst ha
    simp only [init_marble, hx]
  · match args with
    | [] => exact fun _ => rfl
    | [a] => exact fun h => absurd rfl h
    | a :: b :: t => exact fun _ => rfl
  · match args with
    | [] => exact fun _ => rfl
    | [a] => exact fun _ => rfl
    | [a, b] => exact fun h => absurd rfl h
    | a :: b :: c :: t => exact fun _ => rfl
  · match args with
    | [] => exact fun _ => rfl
    | [a] => exact fun _ => rfl
    | [a, b] => exact fun h => absurd rfl h
    | a :: b :: c :: t => exact fun _ => rfl
  · match args with
    | [] => exact fun _ => rfl
    | [a] => exact fun _ => rfl
    | [a, b] => exact fun _ => rfl
    | a :: b :: c :: t =>
        intro h
        rw [List.length_cons, List.length_cons, List.length_cons] at h
        omega
  · match args with
    | [] => exact fun _ => rfl
    | [a] => exact fun _ => rfl
    | [a, b] => exact fun _ => rfl
    | [a, b, c] => exact fun h => absurd rfl h
    | a :: b :: c :: d :: t => exact fun _ => rfl
  · intro a b c ha hx
    subst ha
    simp only [perform_trade, hx]
  · match args with
    | [] => exact fun _ => rfl
    | [a] => exact fun h => absurd rfl h
    | a :: b :: t => exact fun _ => rfl
  · intro a ha hx
    subst ha
    simp only [remove_trade, hx]
  · intro u wc ws rest ha hx
    subst ha
    cases hp : parseDescList rest with
    | none => simp only [open_trade, hx, hp]
    | some ds => simp only [open_trade, hx, hp]
  · intro u wc ws rest ha hp
    subst ha
    cases hz : atoi ws with
    | none => simp only [open_trade, hz, hp]
    | some wz => simp only [open_trade, hz, hp]
  · intro u wc ws ha wz hz
    subst ha
    have h1 : open_trade now [u, wc, ws] s =
        openTrade now u ⟨"description", wc, wz⟩ [] s := by
      simp only [open_trade, hz, parseDescList]
    rw [h1]
    rfl

theorem validation_failure_no_side_effects_witness :
    read [] [] = (.error .argCount, []) ∧
    write ["onlyone"] [] = (.error .argCount, []) ∧
    init_marble ["n", "c", "big", "o"] [] = (.error .argType, []) ∧
    remove_trade ["out"] [] = (.error .argType, []) ∧
    open_trade 0 ["u", "red", "x"] [] = (.error .argType, []) ∧
    open_trade 0 ["u", "red", "5", "blue"] [] = (.error .argType, []) ∧
    open_trade 0 ["u", "red", "5"] [] = (.error .argCount, []) :=
  ⟨(validation_failure_no_side_effects 0 [] []).1 (by decide),
    (validation_failure_no_side_effects 0 ["onlyone"] []).2.1 (by decide),
    (validation_failure_no_side_effects 0 ["n", "c", "big", "o"]
      []).2.2.2.2.2.1 "n" "c" "big" "o" rfl (by decide),
    (validation_failure_no_side_effects 0 ["out"]
      []).2.2.2.2.2.2.2.2.2.2.2.2.2.1 "out" rfl (by decide),
    (validation_failure_no_side_effects 0 ["u", "red", "x"]
      []).2.2.2.2.2.2.2.2.2.2.2.2.2.2.1 "u" "red" "x" [] rfl (by decide),
    (validation_failure_no_side_effects 0 ["u", "red", "5", "blue"]
      []).2.2.2.2.2.2.2.2.2.2.2.2.2.2.2.1 "u" "red" "5" ["blue"] rfl
      (by decide),
    (validation_failure_no_side_effects 0 ["u", "red", "5"]
      []).2.2.2.2.2.2.2.2.2.2.2.2.2.2.2.2 "u" "red" "5" rfl 5 (by decide)⟩

/-- C3: when the trade at the given index exists and the named marble's
record decodes, a `performTrade` call in which either the marble's descriptor
does not equal the trade's `want`, or the trade's user owns no marble
matching any `willing` entry, returns the no-match error with the entire
ledger state unchanged (marble records, both indices and the open-trades
document included) — no partial fulfillment. -/
theorem performTrade_no_match_no_change (i : Int) (cOwner mName : String)
    (s : St) (ts : AllTrades) (m : Marble)
    (hts : getAllTrades s = .ok ts)
    (h0 : 0 ≤ i) (hlt : i.toNat < ts.openTrades.length)
    (hm : getState s mName = some (.marbleV m)) :
    (¬(m.color = (ts.openTrades.get ⟨i.toNat, hlt⟩).want.color ∧
        m.size = (ts.openTrades.get ⟨i.toNat, hlt⟩).want.size) →
      performTrade i cOwner mName s = (.error .noMatch, s)) ∧
    (∀ idx, getMarblesIndex s = .ok idx →
      ownsMatching s (ts.openTrades.get ⟨i.toNat, hlt⟩).user
        (ts.openTrades.get ⟨i.toNat, hlt⟩).willing idx.marbles = none →
      performTrade i cOwner mName s = (.error .noMatch, s)) := by
  constructor
  · intro hneq
    have hb : ¬((m.color = (ts.openTrades.get ⟨i.toNat, hlt⟩).want.color &&
        m.size = (ts.openTrades.get ⟨i.toNat, hlt⟩).want.size) = true) := by
      simp only [Bool.and_eq_true, decide_eq_true_eq]
      exact hneq
    simp only [performTrade, hts]
    rw [dif_pos ⟨h0, hlt⟩]
    simp only [hm]
    rw [if_neg hb]
  · intro idx hidx hnone
    by_cases hb : ((m.color = (ts.openTrades.get ⟨i.toNat, hlt⟩).want.color &&
        m.size = (ts.openTrades.get ⟨i.toNat, hlt⟩).want.size) = true)
    · simp only [performTrade, hts]
      rw [dif_pos ⟨h0, hlt⟩]
      simp only [hm]
      rw [if_pos hb]
      simp only [hidx, hnone]
    · simp only [performTrade, hts]
      rw [dif_pos ⟨h0, hlt⟩]
      simp only [hm]
      rw [if_neg hb]

theorem performTrade_no_match_no_change_witness :
    performTrade 0 "bob" "m2"
      [(openTradesStr,
          Val.tradesV ⟨"Trades",
            [⟨"alice", 0, ⟨"description", "red", 5⟩,
              [⟨"description", "blue", 10⟩]⟩]⟩),
        (marbleIndexStr, Val.marbleIndexV ⟨"MarbleIndex", ["m2"]⟩),
        ("m2", Val.marbleV ⟨"marble", "m2", "green", 7, "bob"⟩)] =
      (.error .noMatch,
        [(openTradesStr,
            Val.tradesV ⟨"Trades",
              [⟨"alice", 0, ⟨"description", "red", 5⟩,
                [⟨"description", "blue", 10⟩]⟩]⟩),
          (marbleIndexStr, Val.marbleIndexV ⟨"MarbleIndex", ["m2"]⟩),
          ("m2", Val.marbleV ⟨"marble", "m2", "green", 7, "bob"⟩)]) :=
  (performTrade_no_match_no_change 0 "bob" "m2"
    [(openTradesStr,
        Val.tradesV ⟨"Trades",
          [⟨"alice", 0, ⟨"description", "red", 5⟩,
            [⟨"description", "blue", 10⟩]⟩]⟩),
      (marbleIndexStr, Val.marbleIndexV ⟨"MarbleIndex", ["m2"]⟩),
      ("m2", Val.marbleV ⟨"marble", "m2", "green", 7, "bob"⟩)]
    ⟨"Trades",
      [⟨"alice", 0, ⟨"description", "red", 5⟩, [⟨"description", "blue", 10⟩]⟩]⟩
    ⟨"marble", "m2", "green", 7, "bob"⟩
    rfl (by decide) (by decide) (by decide)).1 (by decide)

/-! ## The marble-index consistency invariant (C1) -/

/-- A live Marble record is stored under the key. -/
def isMarbleAt (s : St) (n : String) : Prop :=
  ∃ m, getState s n = some (Val.marbleV m)

/-- The marble index decodes, holds no duplicate names, and its name set is
exactly the set of keys holding live Marble records. -/
def MarbleIndexInv (s : St) : Prop :=
  ∃ idx, getState s marbleIndexStr = some (Val.marbleIndexV idx) ∧
    idx.marbles.Nodup ∧
    ∀ n, n ∈ idx.marbles ↔ isMarbleAt s n

/-- An external create-or-delete step, with raw argument strings. -/
inductive RegOp where
  | create (args : List String)
  | del (args : List String)

/-- Run one registry step, keeping only the resulting state. -/
def applyRegOp (s : St) : RegOp → St
  | .create args => (init_marble args s).2
  | .del args => (delete_marble args s).2

/-- Run a sequence of registry steps. -/
def runRegOps : St → List RegOp → St
  | s, [] => s
  | s, op :: ops => runRegOps (applyRegOp s op) ops

theorem createMarble_success (name color : String) (size : Int)
    (owner : String) (s : St) (idx : MarblesIndex)
    (hex : getState s name = none)
    (hgmi : getMarblesIndex
      (putState s name (.marbleV ⟨"marble", name, color, size, owner⟩)) =
        .ok idx)
    (hmem : name ∉ idx.marbles) :
    createMarble name color size owner s =
      (.ok none,
        putState (putState s name (.marbleV ⟨"marble", name, color, size, owner⟩))
          marbleIndexStr
          (.marbleIndexV { idx with marbles := idx.marbles ++ [name] })) := by
  simp only [createMarble, hex, hgmi, if_neg hmem]

theorem createMarble_inv (name color : String) (size : Int) (owner : String)
    (s : St) (h : MarbleIndexInv s) :
    MarbleIndexInv (createMarble name color size owner s).2 := by
  obtain ⟨idx, hidx, hnd, hmem⟩ := h
  cases hex : getState s name with
  | some v =>
      have heq : createMarble name color size owner s =
          (.error .alreadyExists, s) := by
        simp only [createMarble, hex]
      rw [heq]
      exact ⟨idx, hidx, hnd, hmem⟩
  | none =>
      have hne : name ≠ marbleIndexStr := by
        intro hc
        rw [hc, hidx] at hex
        cases hex
      have hidx1 : getState
          (putState s name (.marbleV ⟨"marble", name, color, size, owner⟩))
          marbleIndexStr = some (.marbleIndexV idx) := by
        rw [getState_putState_ne _ _ _ _ (Ne.symm hne)]
        exact hidx
      have hgmi := (getMarblesIndex_ok_iff _ _).2 hidx1
      have hnm : name ∉ idx.marbles := by
        intro hin
        obtain ⟨mm, hmm⟩ := (hmem name).1 hin
        rw [hex] at hmm
        cases hmm
      have heq := createMarble_success name color size owner s idx hex hgmi hnm
      rw [heq]
      refine ⟨{ idx with marbles := idx.marbles ++ [name] },
        getState_putState_self _ _ _, ?_, ?_⟩
      · exact hnd.append (List.nodup_singleton name)
          (fun a ha hb => hnm (List.mem_singleton.1 hb ▸ ha))
      · intro k
        show k ∈ idx.marbles ++ [name] ↔ _
        rw [List.mem_append, List.mem_singleton]
        by_cases hk : k = name
        · subst hk
          simp only [or_true, true_iff]
          refine ⟨⟨"marble", k, color, size, owner⟩, ?_⟩
          rw [getState_putState_ne _ _ _ _ hne, getState_putState_self]
        · by_cases hki : k = marbleIndexStr
          · subst hki
            constructor
            · intro hin
              rcases hin with hin | hin
              · obtain ⟨mm, hmm⟩ := (hmem _).1 hin
                rw [hidx] at hmm
                cases hmm
              · exact absurd hin hk
            · intro hA
              obtain ⟨mm, hmm⟩ := hA
              rw [getState_putState_self] at hmm
              cases hmm
          · have hgk :
                getState (putState
                  (putState s name (.marbleV ⟨"marble", name, color, size, owner⟩))
                  marbleIndexStr
                  (.marbleIndexV { idx with marbles := idx.marbles ++ [name] })) k =
                getState s k := by
              rw [getState_putState_ne _ _ _ _ hki,
                getState_putState_ne _ _ _ _ hk]
            constructor
            · intro hin
              rcases hin with hin | hin
              · obtain ⟨mm, hmm⟩ := (hmem _).1 hin
                exact ⟨mm, by rw [hgk]; exact hmm⟩
              · exact absurd hin hk
            · intro hA
              obtain ⟨mm, hmm⟩ := hA
              rw [hgk] at hmm
              exact Or.inl ((hmem k).2 ⟨mm, hmm⟩)

theorem deleteMarble_success (name : String) (s : St) (m0 : Marble)
    (idx : MarblesIndex)
    (hex : getState s name = some (.marbleV m0))
    (hgmi : getMarblesIndex (delState s name) = .ok idx) :
    deleteMarble name s =
      (.ok none,
        putState (delState s name) marbleIndexStr
          (.marbleIndexV { idx with marbles := idx.marbles.erase name })) := by
  simp only [deleteMarble, hex, hgmi]

theorem deleteMarble_inv (name : String) (s : St) (h : MarbleIndexInv s) :
    MarbleIndexInv (deleteMarble name s).2 := by
  obtain ⟨idx, hidx, hnd, hmem⟩ := h
  cases hex : getState s name with
  | none =>
      have heq : deleteMarble name s = (.error .notFound, s) := by
        simp only [deleteMarble, hex]
      rw [heq]
      exact ⟨idx, hidx, hnd, hmem⟩
  | some v =>
      cases v with
      | marbleV m0 =>
          have hne : name ≠ marbleIndexStr := by
            intro hc
            rw [hc, hidx] at hex
            simp at hex
          have hidx1 : getState (delState s name) marbleIndexStr =
              some (.marbleIndexV idx) := by
            rw [getState_delState_ne _ _ _ (Ne.symm hne)]
            exact hidx
          have hgmi := (getMarblesIndex_ok_iff _ _).2 hidx1
          have heq := deleteMarble_success name s m0 idx hex hgmi
          rw [heq]
          refine ⟨{ idx with marbles := idx.marbles.erase name },
            getState_putState_self _ _ _, hnd.erase name, ?_⟩
          intro k
          show k ∈ idx.marbles.erase name ↔ _
          rw [hnd.mem_erase_iff]
          by_cases hki : k = marbleIndexStr
          · subst hki
            constructor
            · intro hin
              obtain ⟨mm, hmm⟩ := (hmem _).1 hin.2
              rw [hidx] at hmm
              cases hmm
            · intro hA
              obtain ⟨mm, hmm⟩ := hA
              rw [getState_putState_self] at hmm
              cases hmm
          · have hgk : getState (putState (delState s name) marbleIndexStr
                (.marbleIndexV { idx with marbles := idx.marbles.erase name })) k =
                getState (delState s name) k :=
              getState_putState_ne _ _ _ _ hki
            by_cases hk : k = name
            · subst hk
              constructor
              · intro hin
                exact absurd rfl hin.1
              · intro hA
                obtain ⟨mm, hmm⟩ := hA
                rw [hgk, getState_delState_self] at hmm
                cases hmm
            · constructor
              · intro hin
                obtain ⟨mm, hmm⟩ := (hmem _).1 hin.2
                refine ⟨mm, ?_⟩
                rw [hgk, getState_delState_ne _ _ _ hk]
                exact hmm
              · intro hA
                obtain ⟨mm, hmm⟩ := hA
                rw [hgk, getState_delState_ne _ _ _ hk] at hmm
                exact ⟨hk, (hmem k).2 ⟨mm, hmm⟩⟩
      | raw a =>
          have heq : deleteMarble name s = (.error .decodeFail, s) := by
            simp only [deleteMarble, hex]
          rw [heq]
          exact ⟨idx, hidx, hnd, hmem⟩
      | marbleIndexV i =>
          have heq : deleteMarble name s = (.error .decodeFail, s) := by
            simp only [deleteMarble, hex]
          rw [heq]
          exact ⟨idx, hidx, hnd, hmem⟩
      | tradesV t =>
          have heq : deleteMarble name s = (.error .decodeFail, s) := by
            simp only [deleteMarble, hex]
          rw [heq]
          exact ⟨idx, hidx, hnd, hmem⟩
      | ownerV o =>
          have heq : deleteMarble name s = (.error .decodeFail, s) := by
            simp only [deleteMarble, hex]
          rw [heq]
          exact ⟨idx, hidx, hnd, hmem⟩
      | ownersIndexV i =>
          have heq : deleteMarble name s = (.error .decodeFail, s) := by
            simp only [deleteMarble, hex]
          rw [heq]
          exact ⟨idx, hidx, hnd, hmem⟩

theorem init_marble_inv (args : List String) (s : St)
    (h : MarbleIndexInv s) : MarbleIndexInv (init_marble args s).2 := by
  match args with
  | [name, color, sizeStr, owner] =>
      cases hz : atoi sizeStr with
      | some size =>
          have heq : (init_marble [name, color, sizeStr, owner] s).2 =
              (createMarble name color size owner s).2 := by
            simp only [init_marble, hz]
          rw [heq]
          exact createMarble_inv name color size owner s h
      | none =>
          have heq : init_marble [name, color, sizeStr, owner] s =
              (.error .argType, s) := by
            simp only [init_marble, hz]
          rw [heq]
          exact h
  | [] => exact h
  | [a] => exact h
  | [a, b] => exact h
  | [a, b, c] => exact h
  | a :: b :: c :: d :: e :: t => exact h

theorem delete_marble_inv (args : List String) (s : St)
    (h : MarbleIndexInv s) : MarbleIndexInv (delete_marble args s).2 := by
  match args with
  | [name] => exact deleteMarble_inv name s h
  | [] => exact h
  | a :: b :: t => exact h

theorem applyRegOp_inv (s : St) (op : RegOp) (h : MarbleIndexInv s) :
    MarbleIndexInv (applyRegOp s op) := by
  cases op with
  | create args => exact init_marble_inv args s h
  | del args => exact delete_marble_inv args s h

theorem init_establishes_inv (a : String) (v : Int) (h : atoi a = some v) :
    MarbleIndexInv (Init [a] ([] : St)).2 := by
  have hI : (Init [a] ([] : St)).2 =
      putState
        (putState
          (putState (putState [] "abc" (.raw (toString v)))
            marbleIndexStr (.marbleIndexV ⟨"MarbleIndex", []⟩))
          openTradesStr (.tradesV ⟨"Trades", []⟩))
        ownerIndexStr (.ownersIndexV ⟨"OwnerIndex", []⟩) := by
    simp only [Init, h]
  rw [hI]
  refine ⟨⟨"MarbleIndex", []⟩, ?_, List.nodup_nil, ?_⟩
  · rw [getState_putState_ne _ _ _ _ (by decide),
      getState_putState_ne _ _ _ _ (by decide), getState_putState_self]
  · intro n
    show n ∈ ([] : List String) ↔ _
    simp only [List.not_mem_nil, false_iff]
    intro hA
    obtain ⟨m, hm⟩ := hA
    by_cases h1 : n = ownerIndexStr
    · subst h1
      rw [getState_putState_self] at hm
      simp at hm
    · rw [getState_putState_ne _ _ _ _ h1] at hm
      by_cases h2 : n = openTradesStr
      · subst h2
        rw [getState_putState_self] at hm
        simp at hm
      · rw [getState_putState_ne _ _ _ _ h2] at hm
        by_cases h3 : n = marbleIndexStr
        · subst h3
          rw [getState_putState_self] at hm
          simp at hm
        · rw [getState_putState_ne _ _ _ _ h3] at hm
          by_cases h4 : n = "abc"
          · subst h4
            rw [getState_putState_self] at hm
            simp at hm
          · rw [getState_putState_ne _ _ _ _ h4] at hm
            simp [getState] at hm

/-- C1: starting from the state `Init` establishes on an empty ledger, every
sequence of `init_marble` (createMarble) and `delete_marble` (deleteMarble)
invocations — whatever their raw arguments — preserves the marble-index
invariant: the index decodes, carries no duplicate names, and its name set
equals exactly the set of keys holding live Marble records. -/
theorem marble_index_consistency (a : String) (v : Int) (h : atoi a = some v)
    (ops : List RegOp) :
    MarbleIndexInv (runRegOps (Init [a] ([] : St)).2 ops) := by
  have h0 := init_establishes_inv a v h
  revert h0
  generalize (Init [a] ([] : St)).2 = s0
  induction ops generalizing s0 with
  | nil => exact fun h0 => h0
  | cons op rest ih =>
      intro h0
      exact ih (applyRegOp s0 op) (applyRegOp_inv s0 op h0)

theorem marble_index_consistency_witness :
    MarbleIndexInv (runRegOps (Init ["1"] ([] : St)).2
      [RegOp.create ["m1", "blue", "10", "alice"],
        RegOp.create ["m2", "red", "5", "bob"],
        RegOp.del ["m1"]]) :=
  marble_index_consistency "1" 1 (by decide)
    [RegOp.create ["m1", "blue", "10", "alice"],
      RegOp.create ["m2", "red", "5", "bob"],
      RegOp.del ["m1"]]

end Marbles
